import Mathlib

/-!
Verification of the ralphy concurrent multi-agent task orchestrator.

This file embeds, as executable Lean definitions, the parts of the
repository that the checked properties are about:

* `src/cli/src/execution/retry.ts` : `calculateBackoffDelay`, `withRetry`,
  `isRetryableError` (retry envelope with exponential backoff and jitter);
* `src/cli/src/tasks/markdown.ts` : `markComplete`, `countCompleted`
  (markdown checkbox task source);
* `src/ralphy.sh` : `run_parallel_agent` (zero-commit guard),
  `cleanup_agent_worktree`, the batch partition loop of
  `run_parallel_tasks`, the per-group integration merge, and the final
  reconciliation (integration rollup and flat branch merging).

Strings are modelled as lists of characters so that pattern matching on
line heads is directly computable and provable.  JavaScript numbers are
modelled as rationals, with `Math.floor` as the integer floor; the
`Math.random()` draw is an explicit parameter in `[0, 1)`.  Shell control
flow is modelled with per-branch oracles for the outcome of each git
merge invocation.
-/

namespace Ralphy

/-- Characters of a string; all textual data in the embedding uses this form. -/
abbrev Str := List Char

/-- Tests whether `pat` occurs at the head of `s` (character-wise). -/
def leadMatch : Str → Str → Bool
  | [], _ => true
  | _ :: _, [] => false
  | p :: ps, c :: cs => (p == c) && leadMatch ps cs

/-- Tests whether `pat` occurs anywhere inside `s`. -/
def subMatch (pat : Str) : Str → Bool
  | [] => leadMatch pat []
  | c :: rest => leadMatch pat (c :: rest) || subMatch pat rest

/-- Lower-cases every character of a string. -/
def lowerStr (s : Str) : Str := s.map Char.toLower

/-- Case-insensitive substring test (both sides lower-cased). -/
def subMatchCI (pat s : Str) : Bool := subMatch (lowerStr pat) (lowerStr s)

/-! ## retry.ts -/

/-- Embedding of `calculateBackoffDelay` from `src/cli/src/execution/retry.ts`:
exponential delay `baseDelayMs * 2^(attempt-1)`, capped at `maxDelayMs`, then
optionally inflated by `delay * 0.25 * Math.random()`, and floored.  The
`Math.random()` draw is the explicit argument `rand`. -/
def calculateBackoffDelay (attempt : ℕ) (baseDelayMs maxDelayMs : ℚ)
    (useJitter : Bool) (rand : ℚ) : ℤ :=
  let delay := baseDelayMs * 2 ^ (attempt - 1)
  let capped := min delay maxDelayMs
  let jittered := if useJitter then capped + capped * (1 / 4) * rand else capped
  ⌊jittered⌋

/-- Embedding of `isRetryableError` from `src/cli/src/execution/retry.ts`:
a disjunction of substring tests mirroring the regular-expression list
(`/i` patterns are case-insensitive, the rest are case-sensitive literals). -/
def isRetryableError (error : Str) : Bool :=
  subMatchCI "rate limit".toList error ||
  subMatchCI "rate_limit".toList error ||
  subMatchCI "hit your limit".toList error ||
  subMatchCI "quota".toList error ||
  subMatchCI "too many requests".toList error ||
  subMatch "429".toList error ||
  subMatchCI "timeout".toList error ||
  subMatchCI "network".toList error ||
  subMatchCI "connection".toList error ||
  subMatch "ECONNRESET".toList error ||
  subMatch "ETIMEDOUT".toList error ||
  subMatch "ENOTFOUND".toList error ||
  subMatchCI "overloaded".toList error

/-- Observable trace of one `withRetry` run: the returned value or thrown
error (`Except.error none` models the synthetic `All retry attempts failed`
error thrown when no attempt ever ran), the number of attempts performed,
and the arguments of every `onRetry` callback invocation in order. -/
structure RetryTrace (T : Type) where
  result : Except (Option Str) T
  attemptsMade : ℕ
  onRetryCalls : List (ℕ × Str × ℚ)
  deriving Repr

/-- Delay passed to `onRetry` and slept before the next attempt, from the
body of `withRetry`: the backoff computation when `exponentialBackoff` is
set, otherwise the flat base delay in milliseconds. -/
def retryDelayOf (attempt : ℕ) (retryDelay maxDelay : ℚ)
    (expBackoff jitter : Bool) (rand : ℕ → ℚ) : ℚ :=
  if expBackoff then
    ((calculateBackoffDelay attempt (retryDelay * 1000) (maxDelay * 1000)
        jitter (rand attempt) : ℤ) : ℚ)
  else retryDelay * 1000

/-- Loop body of `withRetry`.  `fuel` is the number of attempts still
allowed (initially `maxRetries`), `attempt` the 1-based index of the
current attempt, `lastErr` the last caught error, `calls` the `onRetry`
invocations so far (reversed accumulator).  The attempt outcome is
`fn attempt`. -/
def withRetryGo {T : Type} (fn : ℕ → Except Str T) (delayOf : ℕ → ℚ) :
    ℕ → ℕ → Option Str → List (ℕ × Str × ℚ) → RetryTrace T
  | 0, attempt, lastErr, calls => ⟨Except.error lastErr, attempt - 1, calls.reverse⟩
  | fuel + 1, attempt, _lastErr, calls =>
    match fn attempt with
    | Except.ok v => ⟨Except.ok v, attempt, calls.reverse⟩
    | Except.error e =>
      if fuel = 0 then
        ⟨Except.error (some e), attempt, calls.reverse⟩
      else
        withRetryGo fn delayOf fuel (attempt + 1) (some e)
          ((attempt, e, delayOf attempt) :: calls)

/-- Embedding of `withRetry` from `src/cli/src/execution/retry.ts`: up to
`maxRetries` attempts; after every failed attempt except the last, the
`onRetry` callback receives `(attempt, errorMessage, delayMs)`; exhausting
all attempts re-raises the last error.  `fn k` is the outcome of attempt
`k`; `rand` supplies the jitter draws. -/
def withRetry {T : Type} (fn : ℕ → Except Str T) (maxRetries : ℕ)
    (retryDelay maxDelay : ℚ) (expBackoff jitter : Bool) (rand : ℕ → ℚ) :
    RetryTrace T :=
  withRetryGo fn (fun a => retryDelayOf a retryDelay maxDelay expBackoff jitter rand)
    maxRetries 1 none []

/-! ## markdown.ts -/

/-- Head of an incomplete markdown task line, `- [ ] `. -/
def boxEmpty : Str := ['-', ' ', '[', ' ', ']', ' ']

/-- Head of a completed markdown task line, `- [x] `. -/
def boxDone : Str := ['-', ' ', '[', 'x', ']', ' ']

/-- Upper-case variant `- [X] ` accepted by the case-insensitive
completed-task pattern. -/
def boxDoneU : Str := ['-', ' ', '[', 'X', ']', ' ']

/-- One-line effect of `markComplete`: `line.replace(/^- \[ \] /, "- [x] ")`. -/
def mcLine (line : Str) : Str :=
  if leadMatch boxEmpty line then boxDone ++ line.drop 6 else line

/-- Applies `mcLine` to the line at index `n`, leaving all others alone
(the in-place update `lines[lineNumber] = lines[lineNumber].replace(...)`). -/
def modifyLine : List Str → ℕ → List Str
  | [], _ => []
  | l :: ls, 0 => mcLine l :: ls
  | l :: ls, n + 1 => l :: modifyLine ls n

/-- Embedding of `MarkdownTaskSource.markComplete` from
`src/cli/src/tasks/markdown.ts`: the id parses to a 1-based line number;
if `0 <= lineNumber < lines.length` the line is rewritten with the
checkbox replacement and the file written back, otherwise nothing
happens. -/
def markComplete (lines : List Str) (id : ℤ) : List Str :=
  if 0 ≤ id - 1 ∧ id - 1 < (lines.length : ℤ) then
    modifyLine lines (id - 1).toNat
  else lines

/-- Test for the completed-task pattern `/^- \[x\] /i`. -/
def isCompletedLine (line : Str) : Bool :=
  leadMatch boxDone line || leadMatch boxDoneU line

/-- Embedding of `MarkdownTaskSource.countCompleted`: the number of lines
matching the completed-task pattern. -/
def countCompleted (lines : List Str) : ℕ :=
  lines.countP (fun l => isCompletedLine l)

/-! ## ralphy.sh : run_parallel_agent -/

/-- Terminal and transient states written to a status file by
`run_parallel_agent` (`setting up`, `running`, `done`, `failed`). -/
inductive AgentStatus where
  | settingUp
  | running
  | done
  | failed
  deriving Repr, DecidableEq

/-- Success test of one backend invocation inside the retry loop of
`run_parallel_agent`: the captured output is non-empty and
`check_for_errors` found no error event. -/
def attemptSucceeds (result : Str) (errorFound : Bool) : Bool :=
  (!result.isEmpty) && !errorFound

/-- Per-job record assembled by `run_parallel_agent`: the status-file
value, the two token counts written to the output file, and the branch
name appended on success. -/
structure JobRecord where
  status : AgentStatus
  inTok : ℕ
  outTok : ℕ
  branch : Option String
  deriving Repr, DecidableEq

/-- Epilogue of `run_parallel_agent` (lines 2732-2784 of `src/ralphy.sh`):
on backend success the commit count on the branch relative to
`BASE_BRANCH` is computed; zero commits force status `failed` with output
`0 0`; otherwise status `done` with the parsed tokens and the branch name.
Backend failure also yields `failed` with `0 0`. -/
def agentResult (success : Bool) (inTok outTok commitCount : ℕ)
    (branch : String) : JobRecord :=
  if success then
    if commitCount = 0 then ⟨AgentStatus.failed, 0, 0, none⟩
    else ⟨AgentStatus.done, inTok, outTok, some branch⟩
  else ⟨AgentStatus.failed, 0, 0, none⟩

/-- Reconciliation step of `run_parallel_tasks` (lines 2982-3008): the
task of a job is marked complete in the task source exactly when the
status file reads `done`. -/
def markedInSource (r : JobRecord) : Bool := r.status == AgentStatus.done

/-! ## ralphy.sh : cleanup_agent_worktree -/

/-- Git-visible state touched by `cleanup_agent_worktree`: whether the
worktree directory exists, whether `git status --porcelain` in it is
non-empty, whether the worktree is registered, whether the branch of the
job exists, and the log lines appended so far. -/
structure WorktreeState where
  dirExists : Bool
  dirty : Bool
  registered : Bool
  branchExists : Bool
  log : List String
  deriving Repr, DecidableEq

/-- Projection of a `WorktreeState` to its git-visible core, leaving out
the log. -/
def wtCore (s : WorktreeState) : Bool × Bool × Bool × Bool :=
  (s.dirExists, s.dirty, s.registered, s.branchExists)

/-- Embedding of `cleanup_agent_worktree` (lines 2562-2587 of
`src/ralphy.sh`): a worktree whose directory exists and whose status is
dirty is left in place (a log line is appended when a log file was
given); otherwise `git worktree remove -f` drops the directory and its
registration.  The branch is never touched. -/
def cleanupAgentWorktree (s : WorktreeState) (hasLogFile : Bool) : WorktreeState :=
  let isDirty := s.dirExists && s.dirty
  if isDirty then
    if hasLogFile then
      { s with log := s.log ++ ["Worktree left in place due to uncommitted changes"] }
    else s
  else
    { s with dirExists := false, registered := false }

/-! ## ralphy.sh : batch partition loop -/

/-- Sizes of the consecutive batches produced by the scheduling loop of
`run_parallel_tasks` (lines 2855-2862): starting from `batch_start = 0`,
each batch ends at `min (batch_start + MAX_PARALLEL) total`, until the
whole task list is covered.  `c` is `MAX_PARALLEL`, `n` the number of
remaining tasks.  The loop does not terminate for `c = 0`; the embedding
returns `[]` there, outside the domain of the checked property. -/
def batchSizes (c : ℕ) (n : ℕ) : List ℕ :=
  if h : c = 0 ∨ n = 0 then []
  else min c n :: batchSizes c (n - min c n)
termination_by n
decreasing_by
  have hc : 0 < c := Nat.pos_of_ne_zero (fun hh => h (Or.inl hh))
  have hn : 0 < n := Nat.pos_of_ne_zero (fun hh => h (Or.inr hh))
  exact Nat.sub_lt hn (lt_min hc hn)

/-! ## ralphy.sh : per-group integration merge -/

/-- Outcome of one group-integration attempt: the base branch for the
next group, the tracked integration branches, whether the new integration
branch was kept, and whether a conflicting merge was aborted. -/
structure IntegrationOutcome where
  baseBranch : String
  integrationBranches : List String
  branchKept : Bool
  mergeAborted : Bool
  deriving Repr, DecidableEq

/-- Embedding of the per-group integration step of `run_parallel_tasks`
(lines 3052-3102 of `src/ralphy.sh`).  `ib` is the new integration branch
name, `createOk` and `checkoutOk` the outcomes of `git branch` and
`git checkout`, and `mergeOk b` the outcome of `git merge --no-edit b`.
The merge loop stops at the first failing branch; on failure the merge is
aborted, the integration branch deleted, and the base branch left as it
was.  On success the base branch becomes the integration branch and the
branch is recorded for final cleanup. -/
def integrateGroup (base : String) (intBranches : List String) (ib : String)
    (createOk checkoutOk : Bool) (mergeOk : String → Bool)
    (completed : List String) : IntegrationOutcome :=
  if createOk then
    if checkoutOk then
      if completed.all mergeOk then
        ⟨ib, intBranches ++ [ib], true, false⟩
      else
        ⟨base, intBranches, false, true⟩
    else ⟨base, intBranches, false, false⟩
  else ⟨base, intBranches, false, false⟩

/-! ## ralphy.sh : final reconciliation -/

/-- Outcome of final reconciliation when integration branches exist: the
branch merged into the original base (if any), the branches whose
deletion was requested, whether a conflicting merge was aborted, and the
branch names reported to the operator for manual resolution. -/
structure FinalIntegration where
  merged : Option String
  deleted : List String
  aborted : Bool
  reported : List String
  deriving Repr, DecidableEq

/-- Embedding of the integration-branch arm of final reconciliation
(lines 3130-3172 of `src/ralphy.sh`): only the last integration branch is
merged into the original base; on success every integration branch and
every completed agent branch is deleted; on conflict the merge is aborted
and the integration branch and original base are reported, with nothing
deleted. -/
def finalReconcileIntegration (origBase : String)
    (intBranches completed : List String) (checkoutOk mergeOk : Bool) :
    FinalIntegration :=
  if intBranches.isEmpty then ⟨none, [], false, []⟩
  else
    let finalIb := intBranches.getLastD ""
    if checkoutOk then
      if mergeOk then ⟨some finalIb, intBranches ++ completed, false, []⟩
      else ⟨none, [], true, [finalIb, origBase]⟩
    else ⟨none, [], false, [finalIb]⟩

/-- Outcome of the flat (no integration branches) arm of final
reconciliation: the branches attempted in the direct-merge loop in order,
the branches merged (and deleted), the branches handed to the
agent-assisted conflict-resolution pass, the branches still failed
afterwards, and the branches whose pending merge was aborted after the
resolution attempt failed. -/
structure FlatOutcome where
  attempted : List String
  merged : List String
  aiInvoked : List String
  stillFailed : List String
  aborted : List String
  deriving Repr, DecidableEq

/-- Agent-assisted conflict-resolution loop (lines 3205-3301 of
`src/ralphy.sh`), one iteration per branch whose direct merge failed.
`hasConflicts b` tells whether conflicted files are present when the
iteration for `b` starts; if not, the stale merge is aborted and the
plain merge retried (`retryOk b`).  Otherwise the agent is invoked once;
`aiResolves b` tells whether no conflicted files remain afterwards: on
success the merge stands and the branch is deleted, otherwise the branch
is recorded as still failed and the merge is aborted.  Returns
`(aiInvoked, merged, stillFailed, aborted)`. -/
def aiResolvePass (hasConflicts retryOk aiResolves : String → Bool) :
    List String → List String × List String × List String × List String
  | [] => ([], [], [], [])
  | b :: rest =>
    let r := aiResolvePass hasConflicts retryOk aiResolves rest
    if hasConflicts b then
      if aiResolves b then (b :: r.1, b :: r.2.1, r.2.2.1, r.2.2.2)
      else (b :: r.1, r.2.1, b :: r.2.2.1, b :: r.2.2.2)
    else
      if retryOk b then (r.1, b :: r.2.1, r.2.2.1, r.2.2.2)
      else (r.1, r.2.1, b :: r.2.2.1, b :: r.2.2.2)

/-- Embedding of the flat arm of final reconciliation (lines 3187-3314 of
`src/ralphy.sh`): every completed branch is merged directly into the
original base in enumeration order; `mergeOk b` is the outcome of that
merge.  Conflicting branches are collected (the loop keeps going) and
then handed to `aiResolvePass`. -/
def finalReconcileFlat (branches : List String)
    (mergeOk hasConflicts retryOk aiResolves : String → Bool) : FlatOutcome :=
  let firstMerged := branches.filter (fun b => mergeOk b)
  let mergeFailed := branches.filter (fun b => !(mergeOk b))
  let r := aiResolvePass hasConflicts retryOk aiResolves mergeFailed
  ⟨branches, firstMerged ++ r.2.1, r.1, r.2.2.1, r.2.2.2⟩

/-! ## Theorems -/

/-- C1: for every parallel agent job whose backend invocation succeeds
(non-empty output, no error event), if the job produced zero new commits
relative to the base branch then its status is `failed` (not `done`), its
output record carries zero tokens and no branch, and the reconciliation
step never marks its task complete in the task source. -/
theorem zero_commit_job_failed (res : Str) (errFound : Bool)
    (inTok outTok : ℕ) (branch : String)
    (hs : attemptSucceeds res errFound = true) :
    agentResult (attemptSucceeds res errFound) inTok outTok 0 branch =
      ⟨AgentStatus.failed, 0, 0, none⟩ ∧
    markedInSource
      (agentResult (attemptSucceeds res errFound) inTok outTok 0 branch) = false := by
  rw [hs]
  exact ⟨by simp [agentResult], by simp [agentResult, markedInSource]⟩

/-- Witness for C1 at a concrete successful backend invocation. -/
theorem zero_commit_job_failed_witness :
    attemptSucceeds ['o', 'k'] false = true ∧
    (agentResult (attemptSucceeds ['o', 'k'] false) 5 7 0 "ralphy/agent-1-x" =
        ⟨AgentStatus.failed, 0, 0, none⟩ ∧
      markedInSource
        (agentResult (attemptSucceeds ['o', 'k'] false) 5 7 0 "ralphy/agent-1-x") = false) :=
  ⟨by decide, zero_commit_job_failed ['o', 'k'] false 5 7 "ralphy/agent-1-x" (by decide)⟩

/-- C2: during group integration, if merging some completed branch into
the integration branch conflicts, the attempt is marked failed (the merge
is aborted), the integration branch is not kept, and the base branch and
tracked integration branches for the next group are exactly what they
were before the attempt. -/
theorem integration_conflict_preserves_base (base ib : String)
    (intBranches : List String) (mergeOk : String → Bool)
    (completed : List String) (hm : completed.all mergeOk = false) :
    integrateGroup base intBranches ib true true mergeOk completed =
      ⟨base, intBranches, false, true⟩ := by
  simp [integrateGroup, hm]

/-- Witness for C2: a two-branch group whose second merge conflicts. -/
theorem integration_conflict_preserves_base_witness :
    (["b1", "b2"].all (fun b => b == "b1") = false) ∧
    integrateGroup "main" ["i0"] "ralphy/integration-group-1" true true
        (fun b => b == "b1") ["b1", "b2"] =
      ⟨"main", ["i0"], false, true⟩ :=
  ⟨by decide,
    integration_conflict_preserves_base "main" "ralphy/integration-group-1"
      ["i0"] (fun b => b == "b1") ["b1", "b2"] (by decide)⟩

/-- C5: `cleanup_agent_worktree` never removes a dirty worktree (its
git-visible state is unchanged and, when a log file is given, a log line
records it); on a clean worktree only the worktree directory and its
registration are removed and the branch is never deleted; a second call
on the same worktree causes no further git-visible state change. -/
theorem cleanup_worktree_safe (s : WorktreeState) (hl : Bool) :
    ((s.dirExists && s.dirty) = true →
      wtCore (cleanupAgentWorktree s hl) = wtCore s) ∧
    ((s.dirExists && s.dirty) = true → hl = true →
      (cleanupAgentWorktree s hl).log =
        s.log ++ ["Worktree left in place due to uncommitted changes"]) ∧
    ((s.dirExists && s.dirty) = false →
      cleanupAgentWorktree s hl =
        { s with dirExists := false, registered := false }) ∧
    (cleanupAgentWorktree s hl).branchExists = s.branchExists ∧
    wtCore (cleanupAgentWorktree (cleanupAgentWorktree s hl) hl) =
      wtCore (cleanupAgentWorktree s hl) := by
  refine ⟨?_, ?_, ?_, ?_, ?_⟩
  · intro hd
    cases hl <;> simp [cleanupAgentWorktree, hd, wtCore]
  · intro hd hhl
    subst hhl
    simp [cleanupAgentWorktree, hd]
  · intro hd
    simp [cleanupAgentWorktree, hd]
  · by_cases hd : (s.dirExists && s.dirty) = true
    · cases hl <;> simp [cleanupAgentWorktree, hd]
    · simp [cleanupAgentWorktree, Bool.eq_false_iff.mpr hd]
  · by_cases hd : (s.dirExists && s.dirty) = true
    · cases hl <;> simp [cleanupAgentWorktree, hd, wtCore]
    · have hd2 : (s.dirExists && s.dirty) = false := by
        exact Bool.eq_false_iff.mpr hd
      simp [cleanupAgentWorktree, hd2, wtCore]

/-- Witness for C5: a dirty worktree is preserved; a clean one is
removed with its branch intact. -/
theorem cleanup_worktree_safe_witness :
    wtCore (cleanupAgentWorktree ⟨true, true, true, true, []⟩ true) =
      wtCore ⟨true, true, true, true, []⟩ ∧
    cleanupAgentWorktree ⟨true, false, true, true, []⟩ true =
      ⟨false, false, false, true, []⟩ := by
  constructor
  · exact (cleanup_worktree_safe ⟨true, true, true, true, []⟩ true).1 (by decide)
  · exact (cleanup_worktree_safe ⟨true, false, true, true, []⟩ true).2.2.1 (by decide)

/-- C6: with at least one integration branch, final reconciliation merges
only the last integration branch into the original base; on success it
deletes every integration branch and every completed agent branch; on
conflict it aborts, deletes nothing, and reports the integration branch
and the original base for manual resolution. -/
theorem final_integration_rollup (origBase : String)
    (intBranches completed : List String) (mergeOk : Bool)
    (hne : intBranches ≠ []) :
    (mergeOk = true →
      finalReconcileIntegration origBase intBranches completed true mergeOk =
        ⟨some (intBranches.getLastD ""), intBranches ++ completed, false, []⟩) ∧
    (mergeOk = false →
      finalReconcileIntegration origBase intBranches completed true mergeOk =
        ⟨none, [], true, [intBranches.getLastD "", origBase]⟩) := by
  have h : intBranches.isEmpty = false := by
    cases intBranches with
    | nil => exact absurd rfl hne
    | cons a l => rfl
  constructor <;> intro hm <;> subst hm <;> simp [finalReconcileIntegration, h]

/-- Witness for C6 with concrete integration branches, in both the
success and the conflict case. -/
theorem final_integration_rollup_witness :
    finalReconcileIntegration "main" ["i1", "i2"] ["b1"] true true =
      ⟨some (["i1", "i2"].getLastD ""), ["i1", "i2"] ++ ["b1"], false, []⟩ ∧
    finalReconcileIntegration "main" ["i1"] ["b1"] true false =
      ⟨none, [], true, [["i1"].getLastD "", "main"]⟩ := by
  constructor
  · exact (final_integration_rollup "main" ["i1", "i2"] ["b1"] true (by decide)).1 rfl
  · exact (final_integration_rollup "main" ["i1"] ["b1"] false (by decide)).2 rfl

/-- Unfolding equation of the batch partition loop. -/
theorem batchSizes_eq (c n : ℕ) :
    batchSizes c n =
      if c = 0 ∨ n = 0 then [] else min c n :: batchSizes c (n - min c n) := by
  rw [batchSizes]
  simp [dite_eq_ite]

/-- Every batch size is at most the concurrency ceiling. -/
theorem batchSizes_le (c : ℕ) : ∀ n, ∀ s ∈ batchSizes c n, s ≤ c := by
  intro n
  induction n using Nat.strong_induction_on with
  | _ n ih =>
    intro s hs
    rw [batchSizes_eq] at hs
    by_cases h : c = 0 ∨ n = 0
    · simp [h] at hs
    · simp only [h, if_false] at hs
      push_neg at h
      have hc : 0 < c := Nat.pos_of_ne_zero h.1
      have hn : 0 < n := Nat.pos_of_ne_zero h.2
      rcases List.mem_cons.mp hs with h1 | h2
      · exact h1 ▸ min_le_left c n
      · exact ih (n - min c n) (Nat.sub_lt hn (lt_min hc hn)) s h2

/-- The batch sizes sum to the number of tasks. -/
theorem batchSizes_sum (c : ℕ) : ∀ n, (batchSizes c n).sum = if c = 0 then 0 else n := by
  intro n
  induction n using Nat.strong_induction_on with
  | _ n ih =>
    rw [batchSizes_eq]
    by_cases h : c = 0 ∨ n = 0
    · rcases h with h | h
      · simp [h]
      · subst h
        by_cases hc : c = 0 <;> simp [hc]
    · push_neg at h
      have hc : 0 < c := Nat.pos_of_ne_zero h.1
      have hn : 0 < n := Nat.pos_of_ne_zero h.2
      simp only [h.1, h.2, or_self, if_false, List.sum_cons, false_or]
      rw [ih (n - min c n) (Nat.sub_lt hn (lt_min hc hn))]
      simp only [h.1, if_false]
      omega

/-- The number of batches is the ceiling of tasks over the ceiling. -/
theorem batchSizes_length (c : ℕ) (hc : 0 < c) :
    ∀ n, (batchSizes c n).length = (n + c - 1) / c := by
  intro n
  induction n using Nat.strong_induction_on with
  | _ n ih =>
    rw [batchSizes_eq]
    by_cases hn : n = 0
    · subst hn
      simp [Nat.ne_of_gt hc, Nat.div_eq_of_lt (by omega : c - 1 < c)]
    · have hnpos : 0 < n := Nat.pos_of_ne_zero hn
      simp only [Nat.ne_of_gt hc, hn, or_self, if_false, List.length_cons, false_or]
      rw [ih (n - min c n) (Nat.sub_lt hnpos (lt_min hc hnpos))]
      by_cases hcn : n ≤ c
      · have hmin : min c n = n := min_eq_right hcn
        rw [hmin]
        simp only [Nat.sub_self]
        have h0 : (0 + c - 1) / c = 0 := Nat.div_eq_of_lt (by omega)
        have h1 : (n + c - 1) / c = 1 :=
          Nat.div_eq_of_lt_le (by omega) (by omega)
        omega
      · have hmin : min c n = c := min_eq_left (by omega)
        rw [hmin]
        have h1 : n - c + c - 1 = n - 1 := by omega
        have h2 : n + c - 1 = (n - 1) + c := by omega
        rw [h1, h2, Nat.add_div_right _ hc]

/-- C3: for a task set of size `n` in one group and concurrency ceiling
`c > 0`, the scheduling loop of `run_parallel_tasks` produces exactly
`ceil(n / c) = (n + c - 1) / c` consecutive batches, every batch has size
at most `c`, and the batch sizes sum to `n`. -/
theorem batch_partition_spec (n c : ℕ) (hc : 0 < c) :
    (batchSizes c n).length = (n + c - 1) / c ∧
    (∀ s ∈ batchSizes c n, s ≤ c) ∧
    (batchSizes c n).sum = n := by
  refine ⟨batchSizes_length c hc n, batchSizes_le c n, ?_⟩
  rw [batchSizes_sum c n]
  simp [Nat.ne_of_gt hc]

/-- Witness for C3 at `n = 5`, `c = 2` (three batches: 2, 2, 1). -/
theorem batch_partition_spec_witness :
    0 < 2 ∧
    ((batchSizes 2 5).length = (5 + 2 - 1) / 2 ∧
      (∀ s ∈ batchSizes 2 5, s ≤ 2) ∧ (batchSizes 2 5).sum = 5) :=
  ⟨by decide, batch_partition_spec 5 2 (by decide)⟩

/-- Filter characterization of the agent-assisted resolution loop: the
agent is invoked exactly on the conflicted branches, a branch ends up
merged when the agent (or the retried plain merge) succeeds for it, and
the still-failed branches are exactly the aborted ones. -/
theorem aiResolvePass_spec (hc ro ar : String → Bool) (l : List String) :
    (aiResolvePass hc ro ar l).1 = l.filter (fun b => hc b) ∧
    (aiResolvePass hc ro ar l).2.1 =
      l.filter (fun b => if hc b then ar b else ro b) ∧
    (aiResolvePass hc ro ar l).2.2.1 =
      l.filter (fun b => if hc b then !(ar b) else !(ro b)) ∧
    (aiResolvePass hc ro ar l).2.2.2 = (aiResolvePass hc ro ar l).2.2.1 := by
  induction l with
  | nil => simp [aiResolvePass]
  | cons b rest ih =>
    by_cases h1 : hc b <;> by_cases h2 : ar b <;> by_cases h3 : ro b <;>
      simp [aiResolvePass, h1, h2, h3, ih.1, ih.2.1, ih.2.2.1, ih.2.2.2]

/-- C7: in flat final reconciliation every completed branch is attempted
in enumeration order and conflicts do not stop the loop; the agent pass
runs exactly once per still-conflicting branch; and a branch whose
conflicts persist after the agent pass is aborted and reported as still
failed, never force-merged. -/
theorem flat_reconciliation_spec (branches : List String)
    (mergeOk hasConflicts retryOk aiResolves : String → Bool) :
    (finalReconcileFlat branches mergeOk hasConflicts retryOk aiResolves).attempted =
      branches ∧
    (finalReconcileFlat branches mergeOk hasConflicts retryOk aiResolves).merged =
      branches.filter (fun b => mergeOk b) ++
        (branches.filter (fun b => !(mergeOk b))).filter
          (fun b => if hasConflicts b then aiResolves b else retryOk b) ∧
    (finalReconcileFlat branches mergeOk hasConflicts retryOk aiResolves).aiInvoked =
      (branches.filter (fun b => !(mergeOk b))).filter (fun b => hasConflicts b) ∧
    (finalReconcileFlat branches mergeOk hasConflicts retryOk aiResolves).stillFailed =
      (branches.filter (fun b => !(mergeOk b))).filter
        (fun b => if hasConflicts b then !(aiResolves b) else !(retryOk b)) ∧
    (finalReconcileFlat branches mergeOk hasConflicts retryOk aiResolves).aborted =
      (finalReconcileFlat branches mergeOk hasConflicts retryOk aiResolves).stillFailed ∧
    (∀ b, branches.Nodup → b ∈ branches → mergeOk b = false →
      hasConflicts b = true →
      (finalReconcileFlat branches mergeOk hasConflicts retryOk
        aiResolves).aiInvoked.count b = 1) ∧
    (∀ b, mergeOk b = false → hasConflicts b = true → aiResolves b = false →
      (b ∈ branches →
        b ∈ (finalReconcileFlat branches mergeOk hasConflicts retryOk
          aiResolves).stillFailed) ∧
      b ∉ (finalReconcileFlat branches mergeOk hasConflicts retryOk
        aiResolves).merged) := by
  have hs := aiResolvePass_spec hasConflicts retryOk aiResolves
    (branches.filter (fun b => !(mergeOk b)))
  refine ⟨rfl, ?_, ?_, ?_, ?_, ?_, ?_⟩
  · simp only [finalReconcileFlat]
    rw [hs.2.1]
  · simp only [finalReconcileFlat]
    rw [hs.1]
  · simp only [finalReconcileFlat]
    rw [hs.2.2.1]
  · simp only [finalReconcileFlat]
    rw [hs.2.2.2, hs.2.2.1]
  · intro b hnd hb hm hcf
    simp only [finalReconcileFlat]
    rw [hs.1, List.count_filter (by simp [hcf]), List.count_filter (by simp [hm])]
    exact List.count_eq_one_of_mem hnd hb
  · intro b hm hcf har
    constructor
    · intro hb
      simp only [finalReconcileFlat]
      rw [hs.2.2.1]
      refine List.mem_filter.mpr ⟨List.mem_filter.mpr ⟨hb, by simp [hm]⟩, ?_⟩
      simp [hcf, har]
    · intro hmem
      simp only [finalReconcileFlat] at hmem
      rw [hs.2.1] at hmem
      rcases List.mem_append.mp hmem with h1 | h2
      · have := (List.mem_filter.mp h1).2
        simp [hm] at this
      · have := (List.mem_filter.mp h2).2
        simp [hcf, har] at this

/-- Witness for C7: three branches, the second conflicts and the agent
resolves it, the third conflicts and the agent does not. -/
theorem flat_reconciliation_spec_witness :
    (finalReconcileFlat ["a", "b", "c"] (fun b => b == "a")
        (fun _ => true) (fun _ => false) (fun b => b == "b")).attempted =
      ["a", "b", "c"] ∧
    ("c" ∈ (finalReconcileFlat ["a", "b", "c"] (fun b => b == "a")
        (fun _ => true) (fun _ => false) (fun b => b == "b")).stillFailed ∧
      "c" ∉ (finalReconcileFlat ["a", "b", "c"] (fun b => b == "a")
        (fun _ => true) (fun _ => false) (fun b => b == "b")).merged) ∧
    (finalReconcileFlat ["a", "b", "c"] (fun b => b == "a")
        (fun _ => true) (fun _ => false) (fun b => b == "b")).aiInvoked.count "b" = 1 := by
  have h := flat_reconciliation_spec ["a", "b", "c"] (fun b => b == "a")
    (fun _ => true) (fun _ => false) (fun b => b == "b")
  refine ⟨h.1, ?_, ?_⟩
  · have h7 := h.2.2.2.2.2.2 "c" (by decide) (by decide) (by decide)
    exact ⟨h7.1 (by decide), h7.2⟩
  · exact h.2.2.2.2.2.1 "b" (by decide) (by decide) (by decide) (by decide)

/-- Value of the backoff computation with jitter disabled. -/
theorem calculateBackoffDelay_no_jitter (k : ℕ) (b M r : ℚ) :
    calculateBackoffDelay k b M false r = ⌊min (b * 2 ^ (k - 1)) M⌋ := by
  simp [calculateBackoffDelay]

/-- Counterexample to C4 as stated: at attempt `k = 2` with base delay
100 ms and cap 150 ms (jitter off), the code returns 150, below the
uncapped exponential `baseDelay * 2^(k-1) = 200`; the claimed lower bound
fails whenever the cap binds. -/
theorem backoff_claim_counterexample :
    ¬ ((100 : ℚ) * 2 ^ (2 - 1) ≤ (calculateBackoffDelay 2 100 150 false 0 : ℚ)) := by
  rw [calculateBackoffDelay_no_jitter]
  have h1 : min ((100 : ℚ) * 2 ^ (2 - 1)) 150 = 150 := by norm_num
  rw [h1]
  have h2 : ⌊(150 : ℚ)⌋ = 150 := by
    rw [show (150 : ℚ) = ((150 : ℤ) : ℚ) by norm_num, Int.floor_intCast]
  rw [h2]
  norm_num

/-- C4 (amended): for attempt `k ≥ 1`, nonnegative base and cap, and a
jitter draw `r` in `[0, 1)`, the computed delay is an integer between the
floor of the capped exponential `min(maxDelay, baseDelay * 2^(k-1))` and
`1.25` times that capped value (the claimed lower bound with the uncapped
exponential is false, see the counterexample); it is monotone
non-decreasing in `k` for a fixed draw, and with jitter disabled it
equals the floor of the capped exponential exactly. -/
theorem backoff_delay_spec (k : ℕ) (b M r : ℚ) (j : Bool)
    (hk : 1 ≤ k) (hb : 0 ≤ b) (hM : 0 ≤ M) (hr : 0 ≤ r) (hr1 : r < 1) :
    ⌊min (b * 2 ^ (k - 1)) M⌋ ≤ calculateBackoffDelay k b M j r ∧
    (calculateBackoffDelay k b M j r : ℚ) ≤ 5 / 4 * min (b * 2 ^ (k - 1)) M ∧
    calculateBackoffDelay k b M j r ≤ calculateBackoffDelay (k + 1) b M j r ∧
    calculateBackoffDelay k b M false r = ⌊min (b * 2 ^ (k - 1)) M⌋ := by
  have hpow : (0 : ℚ) ≤ b * 2 ^ (k - 1) :=
    mul_nonneg hb (pow_nonneg (by norm_num) _)
  have hcap : (0 : ℚ) ≤ min (b * 2 ^ (k - 1)) M := le_min hpow hM
  have hjit : ∀ c : ℚ, 0 ≤ c → c ≤ c + c * (1 / 4) * r ∧ c + c * (1 / 4) * r ≤ 5 / 4 * c := by
    intro c hc
    constructor
    · nlinarith
    · nlinarith
  refine ⟨?_, ?_, ?_, calculateBackoffDelay_no_jitter k b M r⟩
  · cases j with
    | false => rw [calculateBackoffDelay_no_jitter]
    | true =>
      simp only [calculateBackoffDelay, if_true]
      exact Int.floor_le_floor ((hjit _ hcap).1)
  · cases j with
    | false =>
      rw [calculateBackoffDelay_no_jitter]
      calc (⌊min (b * 2 ^ (k - 1)) M⌋ : ℚ) ≤ min (b * 2 ^ (k - 1)) M := Int.floor_le _
        _ ≤ 5 / 4 * min (b * 2 ^ (k - 1)) M := by nlinarith
    | true =>
      simp only [calculateBackoffDelay, if_true]
      calc ((⌊min (b * 2 ^ (k - 1)) M + min (b * 2 ^ (k - 1)) M * (1 / 4) * r⌋ : ℤ) : ℚ)
          ≤ min (b * 2 ^ (k - 1)) M + min (b * 2 ^ (k - 1)) M * (1 / 4) * r :=
            Int.floor_le _
        _ ≤ 5 / 4 * min (b * 2 ^ (k - 1)) M := (hjit _ hcap).2
  · have hmono : min (b * 2 ^ (k - 1)) M ≤ min (b * 2 ^ (k + 1 - 1)) M := by
      refine min_le_min ?_ le_rfl
      have : (2 : ℚ) ^ (k - 1) ≤ 2 ^ (k + 1 - 1) :=
        pow_le_pow_right₀ (by norm_num) (by omega)
      exact mul_le_mul_of_nonneg_left this hb
    cases j with
    | false =>
      rw [calculateBackoffDelay_no_jitter, calculateBackoffDelay_no_jitter]
      exact Int.floor_le_floor hmono
    | true =>
      simp only [calculateBackoffDelay, if_true]
      refine Int.floor_le_floor ?_
      have h4 : min (b * 2 ^ (k - 1)) M * (1 / 4) * r ≤
          min (b * 2 ^ (k + 1 - 1)) M * (1 / 4) * r := by
        apply mul_le_mul_of_nonneg_right _ hr
        · exact mul_le_mul_of_nonneg_right hmono (by norm_num)
      linarith

/-- Witness for the amended C4 at `k = 2`, base 100, cap 150, jitter on
with draw `1/2`. -/
theorem backoff_delay_spec_witness :
    ((1 : ℕ) ≤ 2 ∧ (0 : ℚ) ≤ 100 ∧ (0 : ℚ) ≤ 150 ∧ (0 : ℚ) ≤ 1 / 2 ∧ (1 : ℚ) / 2 < 1) ∧
    (⌊min ((100 : ℚ) * 2 ^ (2 - 1)) 150⌋ ≤ calculateBackoffDelay 2 100 150 true (1 / 2) ∧
      (calculateBackoffDelay 2 100 150 true (1 / 2) : ℚ) ≤
        5 / 4 * min ((100 : ℚ) * 2 ^ (2 - 1)) 150 ∧
      calculateBackoffDelay 2 100 150 true (1 / 2) ≤
        calculateBackoffDelay 3 100 150 true (1 / 2) ∧
      calculateBackoffDelay 2 100 150 false (1 / 2) = ⌊min ((100 : ℚ) * 2 ^ (2 - 1)) 150⌋) :=
  ⟨⟨by norm_num, by norm_num, by norm_num, by norm_num, by norm_num⟩,
    backoff_delay_spec 2 100 150 (1 / 2) true (by norm_num) (by norm_num)
      (by norm_num) (by norm_num) (by norm_num)⟩

/-- Trace of the retry loop when every attempt fails: with `fuel ≥ 1`
attempts left starting at attempt number `attempt`, the loop performs all
of them, ends with the error of the last one, and records one `onRetry`
invocation per failed attempt except the last. -/
theorem withRetryGo_all_fail {T : Type} (fn : ℕ → Except Str T)
    (delayOf : ℕ → ℚ) (msgs : ℕ → Str)
    (hf : ∀ k, fn k = Except.error (msgs k)) :
    ∀ fuel, 1 ≤ fuel → ∀ attempt lastErr calls,
      withRetryGo fn delayOf fuel attempt lastErr calls =
        ⟨Except.error (some (msgs (attempt + fuel - 1))), attempt + fuel - 1,
          calls.reverse ++ (List.range (fuel - 1)).map
            (fun i => (attempt + i, msgs (attempt + i), delayOf (attempt + i)))⟩ := by
  intro fuel
  induction fuel with
  | zero => intro h; exact absurd h (by norm_num)
  | succ f ihf =>
    intro _ attempt lastErr calls
    by_cases hf0 : f = 0
    · subst hf0
      simp [withRetryGo, hf attempt]
    · obtain ⟨g, rfl⟩ : ∃ g, f = g + 1 := ⟨f - 1, by omega⟩
      have hstep :
          withRetryGo fn delayOf (g + 1 + 1) attempt lastErr calls =
            withRetryGo fn delayOf (g + 1) (attempt + 1) (some (msgs attempt))
              ((attempt, msgs attempt, delayOf attempt) :: calls) := by
        simp [withRetryGo, hf attempt]
      rw [hstep, ihf (by omega) (attempt + 1) (some (msgs attempt))
        ((attempt, msgs attempt, delayOf attempt) :: calls)]
      simp only [RetryTrace.mk.injEq]
      have harith : attempt + 1 + (g + 1) - 1 = attempt + (g + 1 + 1) - 1 := by omega
      refine ⟨by rw [harith], by rw [harith], ?_⟩
      simp only [List.reverse_cons, List.append_assoc, List.singleton_append]
      congr 1
      have hrange : List.range (g + 1 + 1 - 1) = 0 :: (List.range g).map Nat.succ := by
        have : g + 1 + 1 - 1 = g + 1 := by omega
        rw [this, List.range_succ_eq_map]
      rw [hrange]
      simp only [List.map_cons, List.map_map, Nat.add_zero]
      congr 1
      · have : g + 1 - 1 = g := by omega
        rw [this]
        refine List.map_congr_left ?_
        intro i _
        have e : attempt + 1 + i = attempt + Nat.succ i := by omega
        simp [Function.comp, e]

/-- C8: if every invocation of the wrapped operation fails, `withRetry`
performs exactly `maxRetries` attempts, re-raises the error of the final
attempt, and invokes `onRetry` once after every failed attempt except the
last, with the attempt number, the error message, and the next delay in
milliseconds. -/
theorem withRetry_exhaustion {T : Type} (fn : ℕ → Except Str T)
    (msgs : ℕ → Str) (n : ℕ) (rd md : ℚ) (eb j : Bool) (rand : ℕ → ℚ)
    (hn : 1 ≤ n) (hf : ∀ k, fn k = Except.error (msgs k)) :
    withRetry fn n rd md eb j rand =
      ⟨Except.error (some (msgs n)), n,
        (List.range (n - 1)).map
          (fun i => (1 + i, msgs (1 + i), retryDelayOf (1 + i) rd md eb j rand))⟩ := by
  unfold withRetry
  rw [withRetryGo_all_fail fn _ msgs hf n hn 1 none []]
  have h1 : 1 + n - 1 = n := by omega
  simp [h1]

/-- Witness for C8: three attempts, all failing. -/
theorem withRetry_exhaustion_witness :
    (1 : ℕ) ≤ 3 ∧
    withRetry (T := ℕ) (fun _ => Except.error ("x".toList)) 3 1 60 true false
        (fun _ => 0) =
      ⟨Except.error (some ("x".toList)), 3,
        (List.range (3 - 1)).map
          (fun i => (1 + i, "x".toList,
            retryDelayOf (1 + i) 1 60 true false (fun _ => 0)))⟩ :=
  ⟨by norm_num,
    withRetry_exhaustion (fun _ => Except.error ("x".toList))
      (fun _ => "x".toList) 3 1 60 true false (fun _ => 0) (by norm_num)
      (fun _ => rfl)⟩

/-- C9: the error classifier is advisory only — `withRetry` never
consults `isRetryableError`.  Two all-failing operations, one whose
messages the classifier rejects as non-retryable and one whose messages
it accepts, produce identical retry behavior: the same number of attempts
(the full ceiling), the same error outcome shape, and the same number of
`onRetry` invocations. -/
theorem withRetry_classifier_advisory {T : Type} (fn fn2 : ℕ → Except Str T)
    (msgs msgs2 : ℕ → Str) (n : ℕ) (rd md : ℚ) (eb j : Bool) (rand : ℕ → ℚ)
    (hn : 1 ≤ n) (hf : ∀ k, fn k = Except.error (msgs k))
    (hf2 : ∀ k, fn2 k = Except.error (msgs2 k))
    (hclass : ∀ k, isRetryableError (msgs k) = false)
    (hclass2 : ∀ k, isRetryableError (msgs2 k) = true) :
    (withRetry fn n rd md eb j rand).attemptsMade = n ∧
    (withRetry fn n rd md eb j rand).attemptsMade =
      (withRetry fn2 n rd md eb j rand).attemptsMade ∧
    (withRetry fn n rd md eb j rand).result = Except.error (some (msgs n)) ∧
    (withRetry fn2 n rd md eb j rand).result = Except.error (some (msgs2 n)) ∧
    (withRetry fn n rd md eb j rand).onRetryCalls.length =
      (withRetry fn2 n rd md eb j rand).onRetryCalls.length := by
  have h1 := withRetry_exhaustion fn msgs n rd md eb j rand hn hf
  have h2 := withRetry_exhaustion fn2 msgs2 n rd md eb j rand hn hf2
  rw [h1, h2]
  simp

/-- Witness for C9: a non-retryable message and a retryable one behave
the same way under the retry envelope. -/
theorem withRetry_classifier_advisory_witness :
    isRetryableError ("weird failure".toList) = false ∧
    isRetryableError ("rate limit".toList) = true ∧
    (withRetry (T := ℕ) (fun _ => Except.error ("weird failure".toList)) 3 1 60
        true false (fun _ => 0)).attemptsMade = 3 := by
  refine ⟨by decide, by decide, ?_⟩
  exact (withRetry_classifier_advisory
    (fun _ => Except.error ("weird failure".toList))
    (fun _ => Except.error ("rate limit".toList))
    (fun _ => "weird failure".toList) (fun _ => "rate limit".toList)
    3 1 60 true false (fun _ => 0) (by norm_num) (fun _ => rfl) (fun _ => rfl)
    (fun _ => (show isRetryableError ("weird failure".toList) = false by decide))
    (fun _ => (show isRetryableError ("rate limit".toList) = true by decide))).1

/-- Head matching is matching on the initial segment. -/
theorem leadMatch_iff (pat : Str) : ∀ s : Str,
    leadMatch pat s = true ↔ s.take pat.length = pat := by
  induction pat with
  | nil => intro s; simp [leadMatch]
  | cons p ps ih =>
    intro s
    cases s with
    | nil => simp [leadMatch]
    | cons c cs =>
      simp only [leadMatch, Bool.and_eq_true, beq_iff_eq, List.length_cons,
        List.take_succ_cons, List.cons.injEq, ih]
      exact ⟨fun x => ⟨x.1.symm, x.2⟩, fun x => ⟨x.1.symm, x.2⟩⟩

/-- A line not headed by the empty checkbox is left alone. -/
theorem mcLine_of_not_box {line : Str} (h : leadMatch boxEmpty line = false) :
    mcLine line = line := by
  simp [mcLine, h]

/-- A line headed by the empty checkbox gets the completed head. -/
theorem mcLine_box {line : Str} (h : leadMatch boxEmpty line = true) :
    mcLine line = boxDone ++ line.drop 6 := by
  simp [mcLine, h]

/-- A line headed by the completed checkbox is not headed by the empty
one. -/
theorem not_boxEmpty_of_done {line : Str} (h : leadMatch boxDone line = true) :
    leadMatch boxEmpty line = false := by
  rw [leadMatch_iff] at h
  apply Bool.eq_false_iff.mpr
  intro h2
  rw [leadMatch_iff] at h2
  rw [show boxEmpty.length = boxDone.length from by decide] at h2
  rw [h] at h2
  exact absurd h2 (by decide)

/-- A line headed by the upper-case completed checkbox is not headed by
the empty one. -/
theorem not_boxEmpty_of_doneU {line : Str} (h : leadMatch boxDoneU line = true) :
    leadMatch boxEmpty line = false := by
  rw [leadMatch_iff] at h
  apply Bool.eq_false_iff.mpr
  intro h2
  rw [leadMatch_iff] at h2
  rw [show boxEmpty.length = boxDoneU.length from by decide] at h2
  rw [h] at h2
  exact absurd h2 (by decide)

/-- The checkbox replacement leaves completed lines unchanged. -/
theorem mcLine_of_completed {line : Str} (h : isCompletedLine line = true) :
    mcLine line = line := by
  rcases Bool.or_eq_true_iff.mp h with h1 | h1
  · exact mcLine_of_not_box (not_boxEmpty_of_done h1)
  · exact mcLine_of_not_box (not_boxEmpty_of_doneU h1)

/-- The result of the checkbox replacement on a matched line is headed by
the completed checkbox. -/
theorem leadMatch_boxDone_append (r : Str) :
    leadMatch boxDone (boxDone ++ r) = true := by
  rw [leadMatch_iff]
  exact List.take_left boxDone r

/-- The result of the checkbox replacement on a matched line no longer
matches the empty checkbox. -/
theorem leadMatch_boxEmpty_boxDone_append (r : Str) :
    leadMatch boxEmpty (boxDone ++ r) = false :=
  not_boxEmpty_of_done (leadMatch_boxDone_append r)

/-- The checkbox replacement is idempotent line-wise. -/
theorem mcLine_idem (line : Str) : mcLine (mcLine line) = mcLine line := by
  by_cases h : leadMatch boxEmpty line = true
  · rw [mcLine_box h]
    exact mcLine_of_not_box (leadMatch_boxEmpty_boxDone_append _)
  · have h2 := Bool.eq_false_iff.mpr h
    rw [mcLine_of_not_box h2, mcLine_of_not_box h2]

/-- The checkbox replacement never unchecks a completed line. -/
theorem isCompletedLine_mono {line : Str} (h : isCompletedLine line = true) :
    isCompletedLine (mcLine line) = true := by
  rw [mcLine_of_completed h]
  exact h

/-- `modifyLine` preserves length. -/
theorem length_modifyLine (ls : List Str) : ∀ n, (modifyLine ls n).length = ls.length := by
  induction ls with
  | nil => intro n; rfl
  | cons l tl ih =>
    intro n
    cases n with
    | zero => simp [modifyLine]
    | succ n => simp [modifyLine, ih n]

/-- `modifyLine` never decreases the completed count. -/
theorem countCompleted_modifyLine (ls : List Str) :
    ∀ n, countCompleted ls ≤ countCompleted (modifyLine ls n) := by
  induction ls with
  | nil => intro n; exact le_refl _
  | cons l tl ih =>
    intro n
    cases n with
    | zero =>
      simp only [modifyLine, countCompleted, List.countP_cons]
      by_cases h : isCompletedLine l = true
      · rw [mcLine_of_completed h]
      · have h2 := Bool.eq_false_iff.mpr h
        simp [h2]
    | succ n =>
      simp only [modifyLine, countCompleted, List.countP_cons]
      have := ih n
      simp only [countCompleted] at this
      omega

/-- `modifyLine` at the same index twice equals once. -/
theorem modifyLine_idem (ls : List Str) :
    ∀ n, modifyLine (modifyLine ls n) n = modifyLine ls n := by
  induction ls with
  | nil => intro n; rfl
  | cons l tl ih =>
    intro n
    cases n with
    | zero => simp [modifyLine, mcLine_idem]
    | succ n => simp [modifyLine, ih n]

/-- Element-wise description of `modifyLine`: the named index gets the
checkbox replacement, everything else is untouched. -/
theorem modifyLine_getElem (ls : List Str) :
    ∀ n j, (modifyLine ls n)[j]? = if j = n then (ls[j]?).map mcLine else ls[j]? := by
  induction ls with
  | nil => intro n j; cases j <;> simp [modifyLine]
  | cons l tl ih =>
    intro n j
    cases n with
    | zero =>
      cases j with
      | zero => simp [modifyLine]
      | succ j => simp [modifyLine]
    | succ n =>
      cases j with
      | zero => simp [modifyLine]
      | succ j =>
        simp only [modifyLine, List.getElem?_cons_succ]
        rw [ih n j]
        simp [Nat.succ_eq_add_one]

/-- One `markComplete` call never decreases the completed count. -/
theorem countCompleted_markComplete (lines : List Str) (id : ℤ) :
    countCompleted lines ≤ countCompleted (markComplete lines id) := by
  unfold markComplete
  by_cases h : 0 ≤ id - 1 ∧ id - 1 < (lines.length : ℤ)
  · rw [if_pos h]
    exact countCompleted_modifyLine lines _
  · exact le_of_eq (by rw [if_neg h])

/-- Any sequence of `markComplete` calls never decreases the completed
count. -/
theorem countCompleted_foldl (ids : List ℤ) :
    ∀ lines, countCompleted lines ≤ countCompleted (List.foldl markComplete lines ids) := by
  induction ids with
  | nil => intro lines; exact le_refl _
  | cons id rest ih =>
    intro lines
    calc countCompleted lines ≤ countCompleted (markComplete lines id) :=
        countCompleted_markComplete lines id
      _ ≤ countCompleted (List.foldl markComplete (markComplete lines id) rest) :=
        ih (markComplete lines id)

/-- C10: the markdown `markComplete` is idempotent (a second call with
the same id changes nothing, so the completed count is never incremented
twice for one id); `countCompleted` is monotone under any sequence of
`markComplete` calls; an out-of-range line number leaves the file
entirely unchanged; and a valid id modifies at most the single line it
names, by the checkbox replacement, with every other line preserved. -/
theorem markdown_markComplete_spec (lines : List Str) (id : ℤ) (ids : List ℤ) :
    markComplete (markComplete lines id) id = markComplete lines id ∧
    countCompleted lines ≤ countCompleted (List.foldl markComplete lines ids) ∧
    (¬ (0 ≤ id - 1 ∧ id - 1 < (lines.length : ℤ)) → markComplete lines id = lines) ∧
    ((0 ≤ id - 1 ∧ id - 1 < (lines.length : ℤ)) → ∀ j : ℕ,
      (markComplete lines id)[j]? =
        if j = (id - 1).toNat then (lines[j]?).map mcLine else lines[j]?) := by
  refine ⟨?_, countCompleted_foldl ids lines, ?_, ?_⟩
  · by_cases h : 0 ≤ id - 1 ∧ id - 1 < (lines.length : ℤ)
    · have h1 : markComplete lines id = modifyLine lines (id - 1).toNat := by
        unfold markComplete
        rw [if_pos h]
      rw [h1]
      have h2 : (0 ≤ id - 1 ∧ id - 1 < ((modifyLine lines (id - 1).toNat).length : ℤ)) := by
        rw [length_modifyLine]
        exact h
      have h3 : markComplete (modifyLine lines (id - 1).toNat) id =
          modifyLine (modifyLine lines (id - 1).toNat) (id - 1).toNat := by
        unfold markComplete
        rw [if_pos h2]
      rw [h3, modifyLine_idem]
    · have h1 : markComplete lines id = lines := by
        unfold markComplete
        rw [if_neg h]
      rw [h1, h1]
  · intro h
    unfold markComplete
    rw [if_neg h]
  · intro h j
    unfold markComplete
    rw [if_pos h]
    exact modifyLine_getElem lines (id - 1).toNat j

/-- Witness for C10 on a concrete three-line file. -/
theorem markdown_markComplete_spec_witness :
    markComplete ["- [ ] alpha".toList, "- [x] beta".toList, "hello".toList] 99 =
      ["- [ ] alpha".toList, "- [x] beta".toList, "hello".toList] ∧
    (markComplete ["- [ ] alpha".toList, "- [x] beta".toList, "hello".toList] 1)[0]? =
      (if (0 : ℕ) = ((1 : ℤ) - 1).toNat then
        (["- [ ] alpha".toList, "- [x] beta".toList, "hello".toList][0]?).map mcLine
      else ["- [ ] alpha".toList, "- [x] beta".toList, "hello".toList][0]?) ∧
    countCompleted ["- [ ] alpha".toList, "- [x] beta".toList, "hello".toList] ≤
      countCompleted (List.foldl markComplete
        ["- [ ] alpha".toList, "- [x] beta".toList, "hello".toList] [1, 1, 99]) :=
  ⟨(markdown_markComplete_spec _ 99 []).2.2.1 (by decide),
    (markdown_markComplete_spec _ 1 []).2.2.2 (by decide) 0,
    (markdown_markComplete_spec _ 1 [1, 1, 99]).2.1⟩

end Ralphy
